import Mathlib

/-!
Verification of the background job subsystem of rapidai (`rapidai/background.py`):
the `JobStatus` / `JobResult` data model, the retry loop of
`InMemoryQueue._execute_job`, the queue operations `enqueue`, `get_result`,
`cancel`, `list_jobs`, and the module-global `get_queue` accessor.

Modelling conventions:
* Timestamps (`datetime.now()`) are readings of an abstract monotone clock
  (`Nat`); the clock advances exactly by the duration of each backoff sleep.
* The callable of a job is modelled by its per-attempt outcome
  `f : Nat -> Except String V`: `f a` is the value returned (`Except.ok`) or
  the message of the exception raised (`Except.error`) by the `a`-th
  invocation (attempts counted from 1).
* asyncio cancellation (`task.cancel()`) is a signal delivered at most once,
  at one of the coroutine's suspension points; `CancelSignal` records where
  (if anywhere) it is delivered for a given run.
* Python dicts are insertion-ordered association lists.
-/

namespace RapidAI

/-- The `JobStatus` string enumeration of `rapidai/background.py`. -/
inductive JobStatus where
  | pending
  | running
  | completed
  | failed
  | cancelled
deriving DecidableEq

/-- The `JobResult` dataclass. `result: Any = None` is modelled as
`Option V`, `error: Optional[str]` as `Option String`, timestamps as
`Option Nat` clock readings. -/
structure JobResult (V : Type) where
  job_id : String
  status : JobStatus
  result : Option V := none
  error : Option String := none
  created_at : Nat := 0
  started_at : Option Nat := none
  completed_at : Option Nat := none
  attempts : Nat := 0
  max_retries : Nat := 3
deriving DecidableEq

/-- `JobResult.is_done`: `status in (COMPLETED, FAILED, CANCELLED)`. -/
def JobResult.is_done {V : Type} (r : JobResult V) : Bool :=
  match r.status with
  | JobStatus.completed => true
  | JobStatus.failed => true
  | JobStatus.cancelled => true
  | _ => false

/-- Where, if anywhere, the asyncio cancellation signal raised by
`task.cancel()` is delivered to the job's task during a run:
* `never`: no cancellation is requested (or it is requested after the task
  has already finished);
* `beforeStart`: the task is cancelled before its coroutine first runs, so
  the body of `_execute_job` never executes;
* `inAttempt a`: `CancelledError` is raised from the awaited callable during
  attempt `a`, and is caught by the `except asyncio.CancelledError` handler;
* `inSleep a`: `CancelledError` is raised from `await asyncio.sleep` during
  the backoff that follows failed attempt `a`; the sleep sits inside the
  `except Exception` handler, so the error is NOT caught and the coroutine
  aborts, leaving the record as it was. -/
inductive CancelSignal where
  | never
  | beforeStart
  | inAttempt (a : Nat)
  | inSleep (a : Nat)
deriving DecidableEq

/-- The `while result.attempts < result.max_retries` loop of
`InMemoryQueue._execute_job`.  Each pass increments `attempts`, invokes the
callable, and either completes, records the error and fails (when
`attempts >= max_retries`), or sleeps `2 ** attempts` time units and retries.
`fuel` is a termination bound only: the loop runs at most
`max_retries - attempts` passes because `attempts` grows by one each pass,
so with `fuel >= max_retries - attempts` the base case is never hit while
the loop guard still holds.  Returns the final record, the final clock, and
the chronological list of backoff delays slept. -/
def execLoop {V : Type} (f : Nat → Except String V) (sig : CancelSignal) :
    Nat → JobResult V → Nat → List Nat → JobResult V × Nat × List Nat
  | 0, r, clock, delays => (r, clock, delays)
  | fuel + 1, r, clock, delays =>
    if r.attempts < r.max_retries then
      if sig = CancelSignal.inAttempt (r.attempts + 1) then
        ({ r with attempts := r.attempts + 1, status := JobStatus.cancelled,
                  completed_at := some clock }, clock, delays)
      else
        match f (r.attempts + 1) with
        | Except.ok v =>
          ({ r with attempts := r.attempts + 1, status := JobStatus.completed,
                    result := some v, completed_at := some clock }, clock, delays)
        | Except.error e =>
          if r.attempts + 1 ≥ r.max_retries then
            ({ r with attempts := r.attempts + 1, status := JobStatus.failed,
                      error := some e, completed_at := some clock }, clock, delays)
          else
            if sig = CancelSignal.inSleep (r.attempts + 1) then
              ({ r with attempts := r.attempts + 1, error := some e }, clock, delays)
            else
              execLoop f sig fuel
                { r with attempts := r.attempts + 1, error := some e }
                (clock + 2 ^ (r.attempts + 1))
                (delays ++ [2 ^ (r.attempts + 1)])
    else (r, clock, delays)

/-- `InMemoryQueue._execute_job`: unless the task was cancelled before its
first step, set the record to Running, stamp `started_at`, and run the retry
loop. -/
def execute_job {V : Type} (f : Nat → Except String V) (sig : CancelSignal)
    (r : JobResult V) (clock : Nat) : JobResult V × Nat × List Nat :=
  if sig = CancelSignal.beforeStart then (r, clock, [])
  else
    execLoop f sig r.max_retries
      { r with status := JobStatus.running, started_at := some clock } clock []

/-- The `JobResult` that `InMemoryQueue.enqueue` creates and registers:
Pending, default `attempts = 0`, the given `max_retries`, `created_at` the
current clock. -/
def pendingJob (V : Type) (job_id : String) (max_retries : Nat) (now : Nat) :
    JobResult V :=
  { job_id := job_id, status := JobStatus.pending, result := none,
    error := none, created_at := now, started_at := none,
    completed_at := none, attempts := 0, max_retries := max_retries }

/-- `self._jobs[job_id] = result` on an insertion-ordered dict: overwrite in
place if the key exists, else append. -/
def dictSet {V : Type} (js : List (String × JobResult V)) (k : String)
    (r : JobResult V) : List (String × JobResult V) :=
  if js.any (fun p => p.1 == k) then
    js.map (fun p => if p.1 == k then (k, r) else p)
  else js ++ [(k, r)]

/-- `self._jobs.get(job_id)` on an insertion-ordered dict. -/
def dictGet {V : Type} (js : List (String × JobResult V)) (k : String) :
    Option (JobResult V) :=
  (js.find? (fun p => p.1 == k)).map Prod.snd

/-- The state of an `InMemoryQueue`: the `_jobs` table and the set of job
ids for which `_tasks` holds a task handle. -/
structure InMemoryQueue (V : Type) where
  jobs : List (String × JobResult V) := []
  tasks : List String := []

/-- `InMemoryQueue.enqueue`: register a fresh Pending `JobResult` under
`job_id`, create a task for it, and return the id.  The record is in the
table before any execution of the callable begins (`asyncio.create_task`
only schedules the coroutine). -/
def enqueue {V : Type} (q : InMemoryQueue V) (job_id : String)
    (max_retries : Nat) (now : Nat) : InMemoryQueue V × String :=
  ({ jobs := dictSet q.jobs job_id (pendingJob V job_id max_retries now),
     tasks := q.tasks ++ [job_id] }, job_id)

/-- `InMemoryQueue.get_result`: `self._jobs.get(job_id)`; total, returns
`none` for unknown ids, and does not modify the queue. -/
def get_result {V : Type} (q : InMemoryQueue V) (job_id : String) :
    Option (JobResult V) :=
  dictGet q.jobs job_id

/-- `InMemoryQueue.cancel`: returns `true` iff a task handle and a record
exist for `job_id` and the record is not terminal.  Its only side effect is
`task.cancel()`, i.e. requesting delivery of a `CancelSignal` to the job's
task; the job table itself is not modified. -/
def cancel {V : Type} (q : InMemoryQueue V) (job_id : String) : Bool :=
  match q.tasks.any (fun t => t == job_id), get_result q job_id with
  | true, some r => !r.is_done
  | _, _ => false

/-- Newest-first order on job records: `a` may precede `b` when
`b.created_at <= a.created_at`. -/
def byNewest {V : Type} (a b : JobResult V) : Prop :=
  b.created_at ≤ a.created_at

instance {V : Type} : DecidableRel (byNewest (V := V)) :=
  fun a b => Nat.decLe b.created_at a.created_at

instance {V : Type} : IsTotal (JobResult V) byNewest :=
  ⟨fun a b => Nat.le_total b.created_at a.created_at⟩

instance {V : Type} : IsTrans (JobResult V) byNewest :=
  ⟨fun _ _ _ h1 h2 => Nat.le_trans h2 h1⟩

/-- `InMemoryQueue.list_jobs`: take the table's values (insertion order),
optionally filter by status, then
`sorted(jobs, key=lambda j: j.created_at, reverse=True)`.  Python's `sorted`
is a stable sort, so its descending-by-key result is the insertion sort with
the non-strict relation `byNewest`. -/
def list_jobs {V : Type} (q : InMemoryQueue V) (status : Option JobStatus) :
    List (JobResult V) :=
  let js := q.jobs.map Prod.snd
  let js := match status with
    | some st => js.filter (fun j => j.status == st)
    | none => js
  List.insertionSort byNewest js

/-- The queue objects `get_queue` can construct (`InMemoryQueue()` takes no
arguments; `RedisQueue(**kwargs)` receives the keyword arguments). -/
inductive Backend where
  | memory
  | redis (kwargs : List (String × String))
deriving DecidableEq

/-- `get_queue(backend, **kwargs)` acting on the module-global `_queue`
(`none` when unset).  Returns the queue handed back to the caller together
with the new value of `_queue`, or the `JobError` message raised for an
unknown backend.  When `_queue` is already set, `backend` and `kwargs` are
never inspected. -/
def get_queue (g : Option Backend) (backend : String)
    (kwargs : List (String × String)) : Except String (Backend × Option Backend) :=
  match g with
  | some q => Except.ok (q, some q)
  | none =>
    if backend = "memory" then Except.ok (Backend.memory, some Backend.memory)
    else if backend = "redis" then
      Except.ok (Backend.redis kwargs, some (Backend.redis kwargs))
    else Except.error ("Unknown backend: " ++ backend)

/-- The backoff delays `2 ^ a` slept after each failed attempt
`a = t + 1, ..., stop - 1` (one delay precedes each of the attempts
`t + 2, ..., stop`). -/
def backoffDelays (t stop : Nat) : List Nat :=
  (List.range' (t + 1) (stop - 1 - t)).map (fun a => 2 ^ a)

theorem backoffDelays_nil (t stop : Nat) (h : stop ≤ t + 1) :
    backoffDelays t stop = [] := by
  unfold backoffDelays
  have h0 : stop - 1 - t = 0 := by omega
  rw [h0]
  rfl

theorem backoffDelays_cons (t stop : Nat) (h : t + 1 < stop) :
    backoffDelays t stop = 2 ^ (t + 1) :: backoffDelays (t + 1) stop := by
  unfold backoffDelays
  have h1 : stop - 1 - t = (stop - 1 - (t + 1)) + 1 := by omega
  rw [h1, List.range'_succ]
  rfl

/-- Characterization of the retry loop on an always-raising callable:
starting from `attempts` with the loop guard true and enough fuel, it
performs the remaining `max_retries - attempts` attempts, sleeps the
corresponding backoff delays, and ends Failed holding the final message. -/
theorem execLoop_allFail {V : Type} (f : Nat → Except String V)
    (msg : Nat → String) (hf : ∀ a, f a = Except.error (msg a)) :
    ∀ (fuel : Nat) (r : JobResult V) (clock : Nat) (delays : List Nat),
      r.attempts + fuel = r.max_retries → r.attempts < r.max_retries →
      execLoop f CancelSignal.never fuel r clock delays =
        ({ r with attempts := r.max_retries, status := JobStatus.failed,
                  error := some (msg r.max_retries),
                  completed_at :=
                    some (clock + (backoffDelays r.attempts r.max_retries).sum) },
         clock + (backoffDelays r.attempts r.max_retries).sum,
         delays ++ backoffDelays r.attempts r.max_retries) := by
  intro fuel
  induction fuel with
  | zero =>
    intro r clock delays hfuel hlt
    omega
  | succ fuel ih =>
    intro r clock delays hfuel hlt
    rw [execLoop, if_pos hlt, if_neg (by simp), hf (r.attempts + 1)]
    dsimp only
    by_cases hend : r.attempts + 1 ≥ r.max_retries
    · rw [if_pos hend]
      have h1 : r.attempts + 1 = r.max_retries := by omega
      rw [backoffDelays_nil _ _ (by omega)]
      simp [h1]
    · rw [if_neg hend, if_neg (by simp)]
      rw [ih { r with attempts := r.attempts + 1, error := some (msg (r.attempts + 1)) }
            (clock + 2 ^ (r.attempts + 1)) (delays ++ [2 ^ (r.attempts + 1)])
            (by simp; omega) (by simp; omega)]
      rw [backoffDelays_cons r.attempts r.max_retries (by omega)]
      simp [Nat.add_assoc]

/-- Characterization of the retry loop on a callable that raises on every
attempt before `k` and returns `v` on attempt `k <= max_retries`: it ends
Completed at attempt `k`, with `result = v`, the error field still holding
the message of attempt `k - 1` when at least one attempt failed. -/
theorem execLoop_succeedsAt {V : Type} (f : Nat → Except String V)
    (msg : Nat → String) (k : Nat) (v : V)
    (hfail : ∀ a, a < k → f a = Except.error (msg a))
    (hk : f k = Except.ok v) :
    ∀ (fuel : Nat) (r : JobResult V) (clock : Nat) (delays : List Nat),
      r.attempts + fuel = r.max_retries → r.attempts < k →
      k ≤ r.max_retries →
      execLoop f CancelSignal.never fuel r clock delays =
        ({ r with attempts := k, status := JobStatus.completed,
                  result := some v,
                  error := if r.attempts + 1 = k then r.error
                           else some (msg (k - 1)),
                  completed_at :=
                    some (clock + (backoffDelays r.attempts k).sum) },
         clock + (backoffDelays r.attempts k).sum,
         delays ++ backoffDelays r.attempts k) := by
  intro fuel
  induction fuel with
  | zero =>
    intro r clock delays hfuel hltk hkmr
    omega
  | succ fuel ih =>
    intro r clock delays hfuel hltk hkmr
    rw [execLoop, if_pos (by omega), if_neg (by simp)]
    by_cases hhit : r.attempts + 1 = k
    · rw [hhit, hk]
      dsimp only
      rw [backoffDelays_nil _ _ (by omega)]
      simp [if_pos hhit]
    · rw [hfail (r.attempts + 1) (by omega)]
      dsimp only
      rw [if_neg (by omega), if_neg (by simp)]
      rw [ih { r with attempts := r.attempts + 1,
                      error := some (msg (r.attempts + 1)) }
            (clock + 2 ^ (r.attempts + 1)) (delays ++ [2 ^ (r.attempts + 1)])
            (by simp; omega) (by simp; omega) (by simp; omega)]
      rw [backoffDelays_cons r.attempts k (by omega)]
      rw [if_neg hhit]
      by_cases hnext : r.attempts + 1 + 1 = k
      · have hk1 : r.attempts + 1 = k - 1 := by omega
        rw [if_pos hnext]
        simp [hk1, Nat.add_assoc]
      · rw [if_neg hnext]
        simp [Nat.add_assoc]

/-- Every run of the retry loop whose accumulated delay list has the shape
`[2 ^ 1, ..., 2 ^ attempts]` finishes with a delay list of the shape
`[2 ^ 1, ..., 2 ^ m]` for some `m >= attempts`: the loop only ever appends
`2 ^ (attempts + 1)` after incrementing `attempts`. -/
theorem execLoop_delays_shape {V : Type} (f : Nat → Except String V)
    (sig : CancelSignal) :
    ∀ (fuel : Nat) (r : JobResult V) (clock : Nat),
      ∃ m, r.attempts ≤ m ∧
        (execLoop f sig fuel r clock
            ((List.range' 1 r.attempts).map (fun b => 2 ^ b))).2.2
          = (List.range' 1 m).map (fun b => 2 ^ b) := by
  intro fuel
  induction fuel with
  | zero =>
    intro r clock
    exact ⟨r.attempts, Nat.le_refl _, rfl⟩
  | succ fuel ih =>
    intro r clock
    rw [execLoop]
    by_cases hguard : r.attempts < r.max_retries
    · rw [if_pos hguard]
      by_cases hatt : sig = CancelSignal.inAttempt (r.attempts + 1)
      · rw [if_pos hatt]
        exact ⟨r.attempts, Nat.le_refl _, rfl⟩
      · rw [if_neg hatt]
        cases hfa : f (r.attempts + 1) with
        | ok v =>
          exact ⟨r.attempts, Nat.le_refl _, rfl⟩
        | error e =>
          dsimp only
          by_cases hend : r.attempts + 1 ≥ r.max_retries
          · rw [if_pos hend]
            exact ⟨r.attempts, Nat.le_refl _, rfl⟩
          · rw [if_neg hend]
            by_cases hslp : sig = CancelSignal.inSleep (r.attempts + 1)
            · rw [if_pos hslp]
              exact ⟨r.attempts, Nat.le_refl _, rfl⟩
            · rw [if_neg hslp]
              have hshape :
                  (List.range' 1 r.attempts).map (fun b => 2 ^ b)
                      ++ [2 ^ (r.attempts + 1)]
                    = (List.range' 1 (r.attempts + 1)).map (fun b => 2 ^ b) := by
                rw [List.range'_concat]
                rw [List.map_append]
                simp [Nat.add_comm]
              rw [hshape]
              obtain ⟨m, hm, hrun⟩ :=
                ih { r with attempts := r.attempts + 1, error := some e }
                  (clock + 2 ^ (r.attempts + 1))
              exact ⟨m, by simp at hm; omega, hrun⟩
    · rw [if_neg hguard]
      exact ⟨r.attempts, Nat.le_refl _, rfl⟩

theorem getElem?_pow_range' (m i x : Nat)
    (h : ((List.range' 1 m).map (fun b => 2 ^ b))[i]? = some x) :
    i < m ∧ x = 2 ^ (1 + i) := by
  rcases Nat.lt_or_ge i m with hlt | hge
  · rw [List.getElem?_map, List.getElem?_range' 1 1 hlt] at h
    refine ⟨hlt, ?_⟩
    simp at h
    omega
  · rw [List.getElem?_eq_none] at h
    · exact absurd h (by simp)
    · simp [hge]

/-- C1: a job enqueued with `max_retries = N >= 1` whose callable raises on
every invocation ends with `attempts = N`, status Failed, `completed_at`
stamped, and `error` holding the message of the N-th (final) failure. -/
theorem job_always_failing_ends_failed {V : Type} (f : Nat → Except String V)
    (msg : Nat → String) (hf : ∀ a, f a = Except.error (msg a))
    (N : Nat) (hN : 1 ≤ N) (id : String) (now clock : Nat) :
    ((execute_job f CancelSignal.never (pendingJob V id N now) clock).1.attempts = N)
    ∧ ((execute_job f CancelSignal.never (pendingJob V id N now) clock).1.status
        = JobStatus.failed)
    ∧ ((execute_job f CancelSignal.never (pendingJob V id N now) clock).1.error
        = some (msg N))
    ∧ ((execute_job f CancelSignal.never
          (pendingJob V id N now) clock).1.completed_at).isSome = true := by
  rw [execute_job, if_neg (by simp)]
  rw [execLoop_allFail f msg hf _ _ _ _ (by simp [pendingJob]) (by simp [pendingJob]; omega)]
  simp [pendingJob]

theorem job_always_failing_ends_failed_witness :
    ((execute_job (fun _ => (Except.error "boom" : Except String Nat))
        CancelSignal.never (pendingJob Nat "j" 2 0) 0).1.attempts = 2)
    ∧ ((execute_job (fun _ => (Except.error "boom" : Except String Nat))
        CancelSignal.never (pendingJob Nat "j" 2 0) 0).1.status = JobStatus.failed)
    ∧ ((execute_job (fun _ => (Except.error "boom" : Except String Nat))
        CancelSignal.never (pendingJob Nat "j" 2 0) 0).1.error = some "boom")
    ∧ ((execute_job (fun _ => (Except.error "boom" : Except String Nat))
        CancelSignal.never (pendingJob Nat "j" 2 0) 0).1.completed_at).isSome = true :=
  job_always_failing_ends_failed (fun _ => Except.error "boom") (fun _ => "boom")
    (fun _ => rfl) 2 (by omega) "j" 0 0

/-- C2: a job whose callable raises on attempts `1..k-1` and returns `v` on
attempt `k <= max_retries` ends Completed with `attempts = k`,
`result = v`, and `completed_at` stamped. -/
theorem job_succeeds_on_kth_attempt {V : Type} (f : Nat → Except String V)
    (msg : Nat → String) (k N : Nat) (v : V)
    (hfail : ∀ a, a < k → f a = Except.error (msg a))
    (hk : f k = Except.ok v) (h1 : 1 ≤ k) (h2 : k ≤ N)
    (id : String) (now clock : Nat) :
    ((execute_job f CancelSignal.never (pendingJob V id N now) clock).1.status
        = JobStatus.completed)
    ∧ ((execute_job f CancelSignal.never (pendingJob V id N now) clock).1.attempts = k)
    ∧ ((execute_job f CancelSignal.never (pendingJob V id N now) clock).1.result = some v)
    ∧ ((execute_job f CancelSignal.never
          (pendingJob V id N now) clock).1.completed_at).isSome = true := by
  rw [execute_job, if_neg (by simp)]
  rw [execLoop_succeedsAt f msg k v hfail hk _ _ _ _
        (by simp [pendingJob]) (by simp [pendingJob]; omega) (by simp [pendingJob]; omega)]
  simp [pendingJob]

theorem job_succeeds_on_kth_attempt_witness :
    ((execute_job
        (fun a => if a < 2 then (Except.error "e" : Except String Nat) else Except.ok 7)
        CancelSignal.never (pendingJob Nat "j" 3 0) 0).1.status = JobStatus.completed)
    ∧ ((execute_job
        (fun a => if a < 2 then (Except.error "e" : Except String Nat) else Except.ok 7)
        CancelSignal.never (pendingJob Nat "j" 3 0) 0).1.attempts = 2)
    ∧ ((execute_job
        (fun a => if a < 2 then (Except.error "e" : Except String Nat) else Except.ok 7)
        CancelSignal.never (pendingJob Nat "j" 3 0) 0).1.result = some 7)
    ∧ ((execute_job
        (fun a => if a < 2 then (Except.error "e" : Except String Nat) else Except.ok 7)
        CancelSignal.never (pendingJob Nat "j" 3 0) 0).1.completed_at).isSome = true :=
  job_succeeds_on_kth_attempt _ (fun _ => "e") 2 3 7
    (fun a ha => by simp [ha]) (by rfl) (by omega) (by omega) "j" 0 0

/-- C9: the Running to Completed transition writes only `status`, `result`
and `completed_at`; in particular `error` is never cleared, so a job that
failed on attempts `1..k-1` and succeeds on attempt `k >= 2` ends Completed
while `error` still holds the message of attempt `k - 1`; `job_id`,
`created_at`, `started_at` and `max_retries` keep the values they had when
the job started running. -/
theorem completed_job_keeps_last_error {V : Type} (f : Nat → Except String V)
    (msg : Nat → String) (k N : Nat) (v : V)
    (hfail : ∀ a, a < k → f a = Except.error (msg a))
    (hk : f k = Except.ok v) (h1 : 2 ≤ k) (h2 : k ≤ N)
    (id : String) (now clock : Nat) :
    ((execute_job f CancelSignal.never (pendingJob V id N now) clock).1.status
        = JobStatus.completed)
    ∧ ((execute_job f CancelSignal.never (pendingJob V id N now) clock).1.error
        = some (msg (k - 1)))
    ∧ ((execute_job f CancelSignal.never (pendingJob V id N now) clock).1.result = some v)
    ∧ ((execute_job f CancelSignal.never (pendingJob V id N now) clock).1.job_id = id)
    ∧ ((execute_job f CancelSignal.never (pendingJob V id N now) clock).1.created_at = now)
    ∧ ((execute_job f CancelSignal.never (pendingJob V id N now) clock).1.started_at
        = some clock)
    ∧ ((execute_job f CancelSignal.never (pendingJob V id N now) clock).1.max_retries = N) := by
  rw [execute_job, if_neg (by simp)]
  rw [execLoop_succeedsAt f msg k v hfail hk _ _ _ _
        (by simp [pendingJob]) (by simp [pendingJob]; omega) (by simp [pendingJob]; omega)]
  simp [pendingJob]
  omega

theorem completed_job_keeps_last_error_witness :
    ((execute_job
        (fun a => if a < 2 then (Except.error "e" : Except String Nat) else Except.ok 7)
        CancelSignal.never (pendingJob Nat "j" 3 4) 9).1.status = JobStatus.completed)
    ∧ ((execute_job
        (fun a => if a < 2 then (Except.error "e" : Except String Nat) else Except.ok 7)
        CancelSignal.never (pendingJob Nat "j" 3 4) 9).1.error = some "e")
    ∧ ((execute_job
        (fun a => if a < 2 then (Except.error "e" : Except String Nat) else Except.ok 7)
        CancelSignal.never (pendingJob Nat "j" 3 4) 9).1.result = some 7)
    ∧ ((execute_job
        (fun a => if a < 2 then (Except.error "e" : Except String Nat) else Except.ok 7)
        CancelSignal.never (pendingJob Nat "j" 3 4) 9).1.job_id = "j")
    ∧ ((execute_job
        (fun a => if a < 2 then (Except.error "e" : Except String Nat) else Except.ok 7)
        CancelSignal.never (pendingJob Nat "j" 3 4) 9).1.created_at = 4)
    ∧ ((execute_job
        (fun a => if a < 2 then (Except.error "e" : Except String Nat) else Except.ok 7)
        CancelSignal.never (pendingJob Nat "j" 3 4) 9).1.started_at = some 9)
    ∧ ((execute_job
        (fun a => if a < 2 then (Except.error "e" : Except String Nat) else Except.ok 7)
        CancelSignal.never (pendingJob Nat "j" 3 4) 9).1.max_retries = 3) :=
  completed_job_keeps_last_error _ (fun _ => "e") 2 3 7
    (fun a ha => by simp [ha]) (by rfl) (by omega) (by omega) "j" 4 9

/-- C3: in every run, the backoff delay slept before invoking retry attempt
`a >= 2` (the entry at position `a - 2` of the chronological delay list) is
exactly `2 ^ (a - 1)` time units, and the delay sequence is strictly
monotonically increasing (no cap, no jitter). -/
theorem backoff_delay_exact_and_monotone {V : Type} (f : Nat → Except String V)
    (sig : CancelSignal) (N : Nat) (id : String) (now clock : Nat) :
    (∀ (a x : Nat), 2 ≤ a →
        ((execute_job f sig (pendingJob V id N now) clock).2.2)[a - 2]? = some x →
        x = 2 ^ (a - 1))
    ∧ (∀ (i j x y : Nat), i < j →
        ((execute_job f sig (pendingJob V id N now) clock).2.2)[i]? = some x →
        ((execute_job f sig (pendingJob V id N now) clock).2.2)[j]? = some y →
        x < y) := by
  by_cases hbs : sig = CancelSignal.beforeStart
  · rw [execute_job, if_pos hbs]
    constructor
    · intro a x _ h
      exact absurd h (by simp)
    · intro i j x y _ h
      exact absurd h (by simp)
  · have hshape : ∃ m,
        (execute_job f sig (pendingJob V id N now) clock).2.2
          = (List.range' 1 m).map (fun b => 2 ^ b) := by
      rw [execute_job, if_neg hbs]
      obtain ⟨m, _, hrun⟩ := execLoop_delays_shape f sig
        (pendingJob V id N now).max_retries
        { (pendingJob V id N now) with
            status := JobStatus.running,
            started_at := some clock } clock
      exact ⟨m, hrun⟩
    obtain ⟨m, hm⟩ := hshape
    rw [hm]
    constructor
    · intro a x ha h
      obtain ⟨_, hx⟩ := getElem?_pow_range' m (a - 2) x h
      rw [hx]
      congr 1
      omega
    · intro i j x y hij hx hy
      obtain ⟨_, hx⟩ := getElem?_pow_range' m i x hx
      obtain ⟨_, hy⟩ := getElem?_pow_range' m j y hy
      rw [hx, hy]
      exact Nat.pow_lt_pow_right (by omega) (by omega)

theorem backoff_delay_exact_and_monotone_witness :
    (((execute_job (fun _ => (Except.error "e" : Except String Nat))
        CancelSignal.never (pendingJob Nat "j" 3 0) 0).2.2)[2 - 2]? = some 2)
    ∧ (2 : Nat) = 2 ^ (2 - 1) :=
  ⟨by rfl,
   (backoff_delay_exact_and_monotone (fun _ => (Except.error "e" : Except String Nat))
      CancelSignal.never 3 "j" 0 0).1 2 2 (by omega) (by rfl)⟩

/-- C5 is violated by the code at `max_retries = 0`: `_execute_job` sets the
record to Running, the `while attempts < max_retries` loop never iterates,
and the run finishes leaving the job non-terminal forever: no further
execution will ever occur, yet `is_done` is false.  (The repository's own
test `test_list_jobs_filtered_by_status` enqueues with `max_retries=0` and
expects the job to complete.) -/
theorem max_retries_zero_never_terminal {V : Type} (f : Nat → Except String V)
    (id : String) (now clock : Nat) :
    ((execute_job f CancelSignal.never (pendingJob V id 0 now) clock).1.status
        = JobStatus.running)
    ∧ ((execute_job f CancelSignal.never
          (pendingJob V id 0 now) clock).1.is_done = false) := by
  exact ⟨rfl, rfl⟩

/-- C4 is violated by the code on a Pending job: `cancel` returns `true`
(a task and a non-terminal record exist) but only cancels the asyncio task;
when the task is cancelled before its coroutine first runs (`beforeStart` -
exactly what happens when `cancel` is called right after `enqueue`, as the
repository's own `test_cancel_job` does), `_execute_job` never executes, so
the record stays Pending forever and never becomes Cancelled. -/
theorem cancel_pending_job_stays_pending (f : Nat → Except String Nat) :
    (cancel ((enqueue ({ jobs := [], tasks := [] } : InMemoryQueue Nat)
        "job-1" 3 5).1) "job-1" = true)
    ∧ (get_result ((enqueue ({ jobs := [], tasks := [] } : InMemoryQueue Nat)
        "job-1" 3 5).1) "job-1" = some (pendingJob Nat "job-1" 3 5))
    ∧ ((execute_job f CancelSignal.beforeStart
          (pendingJob Nat "job-1" 3 5) 5).1.status = JobStatus.pending)
    ∧ ((execute_job f CancelSignal.beforeStart
          (pendingJob Nat "job-1" 3 5) 5).1.status ≠ JobStatus.cancelled) := by
  refine ⟨rfl, rfl, rfl, ?_⟩
  rw [execute_job, if_pos rfl]
  decide

/-- C6: `get_result` on a job id that was never submitted returns `none`;
the function is total (never raises) and reads the table without modifying
it. -/
theorem get_result_unknown_id {V : Type} (q : InMemoryQueue V) (id : String)
    (h : ∀ p ∈ q.jobs, p.1 ≠ id) : get_result q id = none := by
  simp only [get_result, dictGet]
  rw [List.find?_eq_none.mpr (fun p hp => by simpa using h p hp)]
  rfl

theorem get_result_unknown_id_witness :
    get_result (InMemoryQueue.mk [("a", pendingJob Nat "a" 3 0)] ["a"]) "b" = none :=
  get_result_unknown_id _ "b" (by decide)

theorem dictSet_cons_ne {V : Type} (p : String × JobResult V)
    (t : List (String × JobResult V)) (k : String) (r : JobResult V)
    (h : (p.1 == k) = false) :
    dictSet (p :: t) k r = p :: dictSet t k r := by
  unfold dictSet
  rw [List.any_cons, h, Bool.false_or]
  by_cases ht : t.any (fun q => q.1 == k) = true
  · rw [if_pos ht, if_pos ht, List.map_cons, if_neg (by simp [h])]
  · rw [if_neg ht, if_neg ht, List.cons_append]

theorem dictGet_dictSet {V : Type} (js : List (String × JobResult V))
    (k : String) (r : JobResult V) :
    dictGet (dictSet js k r) k = some r := by
  induction js with
  | nil =>
    simp [dictSet, dictGet]
  | cons p t ih =>
    by_cases hpk : (p.1 == k) = true
    · have hany : (p :: t).any (fun q => q.1 == k) = true := by
        simp [List.any_cons, hpk]
      unfold dictSet
      rw [if_pos hany, List.map_cons, if_pos hpk]
      unfold dictGet
      rw [List.find?_cons_of_pos _ (by simp)]
      rfl
    · rw [dictSet_cons_ne p t k r (by simpa using hpk)]
      unfold dictGet
      rw [List.find?_cons_of_neg _ (by simpa using hpk)]
      exact ih

/-- C8: `enqueue` registers a fresh Pending `JobResult` with `attempts = 0`
and the given `max_retries` under the returned job id before any execution
of the callable begins, so `get_result` on the returned id immediately
yields that Pending record. -/
theorem enqueue_registers_pending {V : Type} (q : InMemoryQueue V)
    (id : String) (mr now : Nat) :
    (get_result (enqueue q id mr now).1 (enqueue q id mr now).2
        = some (pendingJob V id mr now))
    ∧ (pendingJob V id mr now).status = JobStatus.pending
    ∧ (pendingJob V id mr now).attempts = 0
    ∧ (pendingJob V id mr now).max_retries = mr := by
  refine ⟨?_, rfl, rfl, rfl⟩
  simp only [enqueue, get_result]
  exact dictGet_dictSet q.jobs id (pendingJob V id mr now)

theorem orderedInsert_of_forall_rel {α : Type} (r : α → α → Prop)
    [DecidableRel r] (a : α) (l : List α) (h : ∀ c ∈ l, r a c) :
    List.orderedInsert r a l = a :: l := by
  cases l with
  | nil => rfl
  | cons c t =>
    simp only [List.orderedInsert]
    rw [if_pos (h c (List.mem_cons_self c t))]

theorem filter_orderedInsert_pos {α : Type} (r : α → α → Prop)
    [DecidableRel r] [IsTrans α r] (p : α → Bool) (a : α) (hpa : p a = true) :
    ∀ l : List α, List.Sorted r l →
      (List.orderedInsert r a l).filter p = List.orderedInsert r a (l.filter p)
  | [], _ => by simp [hpa]
  | b :: t, hl => by
    have hbt : ∀ c ∈ t, r b c := (List.sorted_cons.mp hl).1
    have hst : List.Sorted r t := (List.sorted_cons.mp hl).2
    by_cases hab : r a b
    · simp only [List.orderedInsert]
      rw [if_pos hab, List.filter_cons, if_pos hpa]
      by_cases hpb : p b = true
      · rw [List.filter_cons, if_pos hpb]
        exact (List.orderedInsert_of_le r (t.filter p) hab).symm
      · rw [List.filter_cons, if_neg (by simpa using hpb)]
        exact (orderedInsert_of_forall_rel r a (t.filter p)
          (fun c hc => IsTrans.trans a b c hab (hbt c (List.mem_of_mem_filter hc)))).symm
    · simp only [List.orderedInsert]
      rw [if_neg hab, List.filter_cons]
      by_cases hpb : p b = true
      · rw [if_pos hpb, List.filter_cons, if_pos hpb]
        simp only [List.orderedInsert]
        rw [if_neg hab, filter_orderedInsert_pos r p a hpa t hst]
      · rw [if_neg (by simpa using hpb), List.filter_cons,
            if_neg (by simpa using hpb)]
        exact filter_orderedInsert_pos r p a hpa t hst

theorem filter_orderedInsert_neg {α : Type} (r : α → α → Prop)
    [DecidableRel r] (p : α → Bool) (a : α) (hpa : p a = false) :
    ∀ l : List α, (List.orderedInsert r a l).filter p = l.filter p
  | [] => by simp [hpa]
  | b :: t => by
    by_cases hab : r a b
    · simp only [List.orderedInsert]
      rw [if_pos hab, List.filter_cons, if_neg (by simp [hpa])]
    · simp only [List.orderedInsert]
      rw [if_neg hab, List.filter_cons, List.filter_cons]
      rw [filter_orderedInsert_neg r p a hpa t]

/-- Filtering commutes with a stable sort: sorting then filtering equals
filtering then sorting. -/
theorem filter_insertionSort {α : Type} (r : α → α → Prop) [DecidableRel r]
    [IsTotal α r] [IsTrans α r] (p : α → Bool) :
    ∀ l : List α,
      (List.insertionSort r l).filter p = List.insertionSort r (l.filter p)
  | [] => rfl
  | a :: t => by
    simp only [List.insertionSort]
    by_cases hpa : p a = true
    · rw [filter_orderedInsert_pos r p a hpa _ (List.sorted_insertionSort r t),
          filter_insertionSort r p t, List.filter_cons, if_pos hpa]
      simp only [List.insertionSort]
    · rw [filter_orderedInsert_neg r p a (by simpa using hpa),
          filter_insertionSort r p t,
          List.filter_cons, if_neg (by simpa using hpa)]

/-- C7: `list_jobs` with a status filter returns exactly the members of the
unfiltered `list_jobs` whose status equals the filter, in the same relative
order, and the unfiltered `list_jobs` is sorted newest-first by
`created_at`. -/
theorem list_jobs_filter_and_sorted {V : Type} (q : InMemoryQueue V)
    (st : JobStatus) :
    (list_jobs q (some st)
        = (list_jobs q none).filter (fun j => j.status == st))
    ∧ List.Sorted byNewest (list_jobs q none) := by
  constructor
  · simp only [list_jobs]
    exact (filter_insertionSort byNewest (fun j => j.status == st)
      (q.jobs.map Prod.snd)).symm
  · simp only [list_jobs]
    exact List.sorted_insertionSort byNewest (q.jobs.map Prod.snd)

/-- C10: `get_queue` is first-call-wins: an unset `_queue` is constructed
from the backend argument (raising `JobError` on an unknown name), and once
`_queue` is set every later call returns that same instance without looking
at its `backend` or `kwargs` arguments at all, raising no error even for an
unknown backend name. -/
theorem get_queue_first_call_wins :
    (∀ kw, get_queue none "memory" kw
        = Except.ok (Backend.memory, some Backend.memory))
    ∧ (∀ kw, get_queue none "redis" kw
        = Except.ok (Backend.redis kw, some (Backend.redis kw)))
    ∧ (∀ b kw, b ≠ "memory" → b ≠ "redis" →
        get_queue none b kw = Except.error ("Unknown backend: " ++ b))
    ∧ (∀ q b kw, get_queue (some q) b kw = Except.ok (q, some q)) := by
  refine ⟨fun kw => rfl, fun kw => rfl, ?_, fun q b kw => rfl⟩
  intro b kw h1 h2
  simp [get_queue, h1, h2]

theorem get_queue_first_call_wins_witness :
    (get_queue none "bogus" [] = Except.error ("Unknown backend: " ++ "bogus"))
    ∧ (get_queue (some Backend.memory) "bogus" [("url", "u")]
        = Except.ok (Backend.memory, some Backend.memory)) :=
  ⟨get_queue_first_call_wins.2.2.1 "bogus" [] (by decide) (by decide),
   get_queue_first_call_wins.2.2.2 Backend.memory "bogus" [("url", "u")]⟩

end RapidAI
